import Mathlib

/-!
Verification development for the telegram chat archiver
(`app_src/get_messages_from_chats.py`, `app_src/merge_json.py`).

Timestamps: the program stores dates as strings in the fixed format
"DD-MM-YYYY HH:MM:SS" (second precision, fixed civil timezone) and the
pair `format_moscow_time` / `parse_moscow_time` round-trips at that
precision.  We therefore model a timestamp as the already-parsed value,
a `Nat` (seconds on an absolute scale); formatting followed by parsing
is the identity on this representation, and comparison of parsed
datetimes is comparison of these naturals.
-/

namespace TgArchiver

/-- A stored message record, the unit of the archive
(`message_data` built in `MessageParser.parse_messages`):
`date` (modelled parsed, see the file header), `sender_id`
(`None` or an integer), `sender_username`, `text`. -/
structure Msg where
  date : Nat
  sender_id : Option Int
  sender_username : Option String
  text : String
deriving DecidableEq, Repr

/-- A resolved sender of a source message (`message.sender` when present):
an integer id and an optional username. -/
structure Sender where
  id : Int
  username : Option String
deriving DecidableEq, Repr

/-- A message as yielded by the source stream (`client.iter_messages`):
its timestamp, its optional sender and its optional raw text
(`message.text` may be `None`). -/
structure SourceMsg where
  date : Nat
  sender : Option Sender
  text : Option String
deriving DecidableEq, Repr

/-- One step of the source iteration inside `parse_messages`:
`item none` models a falsy message or one lacking a `date` attribute
(both are skipped with `continue`); `item (some m)` a usable message;
`flood w` a `FloodWaitError` with wait duration `w` raised by the
iterator itself (outside the per-message `try`, so it reaches the
outer `except FloodWaitError`). -/
inductive Event where
  | item (m : Option SourceMsg)
  | flood (seconds : Nat)
deriving DecidableEq, Repr

/-- On-disk state of a per-chat archive file as far as the readers
distinguish it: `missing` (os.path.exists is false), `corrupt`
(open succeeds, `json.load` raises `JSONDecodeError`), or `valid msgs`
(a JSON array of records).  Records are modelled with their parsed
timestamps (see the file header); a record whose `date` key is absent,
empty or unparsable is outside every claim considered here and would
make the readers return `None` through their exception handlers just
like the `corrupt` case. -/
inductive FileState where
  | missing
  | corrupt
  | valid (msgs : List Msg)
deriving DecidableEq, Repr

/-- The `ValueError`s raised by the mode dispatch of `parse_messages`:
a missing (falsy) limit in count mode, or an unknown mode string. -/
inductive ConfigError where
  | missingLimit
  | unknownMode (mode : String)
deriving DecidableEq, Repr

/- ---------------------------------------------------------------
   Filename sanitisation (sanitize_filename / get_chat_file_path)
   --------------------------------------------------------------- -/

/-- The characters removed by the regex in `sanitize_filename`
(pattern: backslash, slash, star, question mark, colon, double quote,
angle brackets, pipe). -/
def invalidChars : List Char := ['\\', '/', '*', '?', ':', '"', '<', '>', '|']

/-- One character of `re.sub(pattern, underscore, name)`: an invalid
character becomes an underscore, everything else is kept. -/
def replaceInvalid (c : Char) : Char := if c ∈ invalidChars then '_' else c

/-- The whitespace characters stripped by Python `str.strip()`
(ASCII portion, which covers the inputs considered here). -/
def isPyWs (c : Char) : Bool :=
  c = ' ' || c = '\t' || c = '\n' || c = '\r' || c = '\x0b' || c = '\x0c'

/-- Remove the longest suffix of characters satisfying `p`
(Python `rstrip`), defined structurally. -/
def rstripIf (p : Char → Bool) : List Char → List Char
  | [] => []
  | c :: cs =>
    match rstripIf p cs with
    | [] => if p c then [] else [c]
    | r => c :: r

/-- Model of `sanitize_filename`: replace invalid characters by
underscores (`re.sub`), strip leading and trailing whitespace
(`str.strip()`), then strip trailing dots (`rstrip` with a dot). -/
def sanitizeFilename (s : String) : String :=
  ⟨rstripIf (fun c => c = '.')
    (rstripIf isPyWs ((s.data.map replaceInvalid).dropWhile isPyWs))⟩

/-- The `chat_title.replace` step of `get_chat_file_path`: every space
becomes an underscore. -/
def replaceSpaces (s : String) : String :=
  ⟨s.data.map (fun c => if c = ' ' then '_' else c)⟩

/-- The sanitised title used by `MessageParser.get_chat_file_path`:
spaces replaced by underscores, then `sanitize_filename`. -/
def getChatFileName (chatTitle : String) : String :=
  sanitizeFilename (replaceSpaces chatTitle)

/-- Model of `MessageParser.get_chat_file_path` with the configured
root directory passed explicitly. -/
def getChatFilePath (root category chatTitle : String) : String :=
  root ++ "/" ++ category ++ "/" ++ getChatFileName chatTitle ++ ".json"

/- ---------------------------------------------------------------
   Archive store (get_last_message_date / merge / save_messages)
   --------------------------------------------------------------- -/

/-- Model of `MessageParser.get_last_message_date`: `None` when the
file is missing, unparsable or the array is empty; otherwise the
(parsed) date of the last record `messages[-1]`. -/
def getLastMessageDate : FileState → Option Nat
  | .missing => none
  | .corrupt => none
  | .valid msgs =>
    match msgs.getLast? with
    | none => none
    | some m => some m.date

/-- Comparison used by every sort in the source:
`key=lambda x: parse_moscow_time(x[date])`, i.e. order by parsed
timestamp. -/
def dateLe (a b : Msg) : Bool := a.date ≤ b.date

/-- Model of `merge_and_sort_messages`: concatenate, then sort
ascending by parsed date.  Python `list.sort` is a stable sort, and
any two stable sorts under the same key agree, so `List.mergeSort`
is an exact model of the result. -/
def mergeAndSortMessages (existing newMsgs : List Msg) : List Msg :=
  (existing ++ newMsgs).mergeSort dateLe

/-- Model of `save_messages`, returning the decoded array the written
file holds afterwards.  Faithful to the source: the incoming list is
sorted first (in place, when non-empty — a no-op distinction); with
`append` set and an existing file, the file is read (`JSONDecodeError`
falls back to an empty existing list), concatenated and re-sorted;
otherwise the new records alone are written.  The write itself
(`os.makedirs`, `json.dump`, `os.chmod`) is modelled by the returned
content. -/
def saveMessages (messages : List Msg) (fs : FileState) (append : Bool) : List Msg :=
  let sortedNew := if messages = [] then messages else messages.mergeSort dateLe
  if append ∧ fs ≠ .missing then
    match fs with
    | .valid existing => (existing ++ sortedNew).mergeSort dateLe
    | _ => (([] : List Msg) ++ sortedNew).mergeSort dateLe
  else sortedNew

/- ---------------------------------------------------------------
   Fetch engine (MessageParser.parse_messages)
   --------------------------------------------------------------- -/

/-- Python truthiness of `limit or 5000`: `None` and `0` fall back to
the default. -/
def pyOrDefault (lim : Option Nat) (d : Nat) : Nat :=
  match lim with
  | none => d
  | some 0 => d
  | some k => k

/-- Python truthiness of the stored `sender_id` in the keep check
`message_data[text] or message_data[sender_id]`: `None` and `0` are
falsy. -/
def pyIntTruthy : Option Int → Bool
  | none => false
  | some i => i ≠ 0

/-- Python `message.text if message.text else` empty: `None` and the
empty string both give the empty string. -/
def pyTextOrEmpty : Option String → String
  | none => ""
  | some s => s

/-- Python slice `message_text[:500]`: the first 500 characters
(code points). -/
def truncate500 (s : String) : String := ⟨s.data.take 500⟩

/-- The stop test `last_date and message_date <= last_date`
(a datetime is truthy exactly when it is not `None`). -/
def boundaryReached : Option Nat → Nat → Bool
  | none, _ => false
  | some d, t => t ≤ d

/-- The stop test `limit is not None and message_count >= limit`. -/
def limitReached : Option Nat → Nat → Bool
  | none, _ => false
  | some l, c => l ≤ c

/-- The keep test on a built record:
`if message_data[text] or message_data[sender_id]`. -/
def keepRecord (r : Msg) : Bool := r.text ≠ "" || pyIntTruthy r.sender_id

/-- The mode dispatch at the top of `parse_messages`, computing the
resume boundary `last_date` and the effective `limit` (or raising).
`todayStart` is the precomputed start of the current local day used
by the `today` branch. -/
def parseSetup (mode : String) (lim : Option Nat) (fs : FileState)
    (todayStart : Nat) : Except ConfigError (Option Nat × Option Nat) :=
  if mode = "last_saved" then
    match getLastMessageDate fs with
    | none => .ok (none, some (pyOrDefault lim 5000))
    | some d => .ok (some d, lim)
  else if mode = "today" then
    match getLastMessageDate fs with
    | some d => if todayStart ≤ d then .ok (some d, lim) else .ok (some todayStart, lim)
    | none => .ok (some todayStart, lim)
  else if mode = "all" then
    .ok (none, lim)
  else if mode = "count" then
    match lim with
    | none => .error .missingLimit
    | some 0 => .error .missingLimit
    | some k => .ok (getLastMessageDate fs, some k)
  else
    .error (.unknownMode mode)

/-- The message loop of `parse_messages` over one iteration of the
source stream.  `acc` is `messages_data` (records are prepended with
`insert(0, ...)`, so with a newest-first stream the accumulator ends
up oldest-first), `cnt` is `message_count`.  Returns the accumulator
and, when a `FloodWaitError` escaped the iteration, its wait duration.
The rate-control calls (`check_request_limit`, `random_delay`) only
sleep and are not observable here. -/
def parseLoop (mode : String) (todayStart : Nat) (lastDate : Option Nat)
    (lim : Option Nat) : List Event → List Msg → Nat → List Msg × Option Nat
  | [], acc, _ => (acc, none)
  | .flood w :: _, acc, _ => (acc, some w)
  | .item none :: evs, acc, cnt => parseLoop mode todayStart lastDate lim evs acc cnt
  | .item (some m) :: evs, acc, cnt =>
    if mode = "today" ∧ m.date < todayStart then (acc, none)
    else if boundaryReached lastDate m.date then (acc, none)
    else
      match m.sender with
      | none => parseLoop mode todayStart lastDate lim evs acc cnt
      | some s =>
        let r : Msg := ⟨m.date, some s.id, s.username, truncate500 (pyTextOrEmpty m.text)⟩
        let acc' := if keepRecord r then r :: acc else acc
        if limitReached lim (cnt + 1) then (acc', none)
        else parseLoop mode todayStart lastDate lim evs acc' (cnt + 1)

/-- The `FloodWaitError` recovery of `parse_messages`: on a flood
signal the engine sleeps the carried duration and recurses on the same
parameters, discarding the partial accumulator.  `attempts` supplies
the stream each successive iteration of `client.iter_messages` yields.
The recursion re-reads the unchanged archive file, so the recomputed
boundary and limit are those of the first call (the only mutation,
`limit = limit or 5000` in boundary-less last_saved mode, is
idempotent); they are therefore threaded through unchanged.  Returns
the records of the first flood-free attempt together with the list of
flood sleeps performed. -/
def runAttempts (mode : String) (todayStart : Nat) (lastDate : Option Nat)
    (lim : Option Nat) : List (List Event) → List Msg × List Nat
  | [] => ([], [])
  | ev :: rest =>
    let res := parseLoop mode todayStart lastDate lim ev [] 0
    match res.2 with
    | none => (res.1, [])
    | some w =>
      let r := runAttempts mode todayStart lastDate lim rest
      (r.1, w :: r.2)

/-- Model of `MessageParser.parse_messages`: mode dispatch, then the
pagination loop with flood-wait restarts.  Returns the accumulated
records and the flood sleeps, or the `ValueError` of the dispatch. -/
def parseMessages (mode : String) (lim : Option Nat) (fs : FileState)
    (todayStart : Nat) (attempts : List (List Event)) :
    Except ConfigError (List Msg × List Nat) :=
  match parseSetup mode lim fs todayStart with
  | .error e => .error e
  | .ok (lastDate, lm) => .ok (runAttempts mode todayStart lastDate lm attempts)

/- ---------------------------------------------------------------
   Batch orchestrator (process_chat_file)
   --------------------------------------------------------------- -/

/-- The per-chat inputs of one iteration of the `process_chat_file`
loop: the chat's archive state and the stream attempts its fetch
observes. -/
structure ChatSpec where
  fs : FileState
  attempts : List (List Event)

/-- The chat loop of `process_chat_file`, modelled on its counters:
for each chat reference run the fetch; any exception (in particular
the `ValueError`s of the mode dispatch) is caught, logged and the
loop continues with the next reference; otherwise `processed_chats`
is incremented, and `updated_files` as well when the fetch returned
any records (which are then saved).  Returns
`(processed_chats, updated_files)`. -/
def processChats (mode : String) (lim : Option Nat) (todayStart : Nat) :
    List ChatSpec → Nat × Nat
  | [] => (0, 0)
  | c :: rest =>
    let tail := processChats mode lim todayStart rest
    match parseMessages mode lim c.fs todayStart c.attempts with
    | .error _ => tail
    | .ok (msgs, _) =>
      if msgs.isEmpty then (tail.1 + 1, tail.2) else (tail.1 + 1, tail.2 + 1)

/- ---------------------------------------------------------------
   Merge job (merge_json.merge_json_files)
   --------------------------------------------------------------- -/

/-- What the merge job sees of one file under the archive root after
`json.load`: undecodable (`JSONDecodeError` / `UnicodeDecodeError`),
a top-level array with its entries, or valid JSON that is not a list.
Entries are opaque (`α`). -/
inductive JsonFile (α : Type) where
  | undecodable
  | array (entries : List α)
  | nonArray
deriving DecidableEq, Repr

/-- Python `str.endswith`, on code points. -/
def pyEndsWith (s suf : String) : Bool := suf.data.isSuffixOf s.data

/-- The collection loop of `merge_json_files` over the walked files
(name, decoded content): files whose name ends in dot-json are read;
a decode error is logged (second component collects the logged file
names); `isinstance(data, list)` guards `extend`, so valid non-list
JSON contributes nothing and logs nothing; other files are ignored.
Returns `(all_entries, error_logged_files)`. -/
def mergeJsonEntries {α : Type} : List (String × JsonFile α) → List α × List String
  | [] => ([], [])
  | (name, content) :: rest =>
    let tail := mergeJsonEntries rest
    if pyEndsWith name ".json" then
      match content with
      | .undecodable => (tail.1, name :: tail.2)
      | .array es => (es ++ tail.1, tail.2)
      | .nonArray => tail
    else tail

/-- The entries a decoded file contributes to the snapshot: its list
when the top level is an array, nothing otherwise. -/
def entriesOf {α : Type} : JsonFile α → List α
  | .array es => es
  | _ => []

/-- Whether a decoded file is the undecodable (logged) case. -/
def isUndecodable {α : Type} : JsonFile α → Bool
  | .undecodable => true
  | _ => false

/-- Write (create or overwrite) one file in the modelled output
directory, an association list of name and decoded content. -/
def writeOut {α : Type} (dir : List (String × List α)) (name : String)
    (content : List α) : List (String × List α) :=
  if dir.any (fun f => f.1 = name) then
    dir.map (fun f => if f.1 = name then (name, content) else f)
  else dir ++ [(name, content)]

/-- Presence test `output_path.exists()` on the modelled directory. -/
def hasOut {α : Type} (dir : List (String × List α)) (name : String) : Bool :=
  dir.any (fun f => f.1 = name)

/-- Content lookup on the modelled output directory. -/
def lookupOut {α : Type} (dir : List (String × List α)) (name : String) :
    Option (List α) :=
  (dir.find? (fun f => f.1 = name)).map (fun f => f.2)

/-- Model of `merge_json_files`: collect the entries, pick the output
name — `merged-<date>.json`, or with a `-<time>` suffix when that file
already exists (no further disambiguation) — and write it.  `dateS`
and `timeS` are the formatted current date and time of the run. -/
def mergeJsonFiles {α : Type} (files : List (String × JsonFile α))
    (dateS timeS : String) (outDir : List (String × List α)) :
    List (String × List α) :=
  let entries := (mergeJsonEntries files).1
  let base := "merged-" ++ dateS ++ ".json"
  let path := if hasOut outDir base then "merged-" ++ dateS ++ "-" ++ timeS ++ ".json" else base
  writeOut outDir path entries

/- ---------------------------------------------------------------
   First-date scan (MessageParser.get_first_message_date) and the
   line layout of the files save_messages writes
   --------------------------------------------------------------- -/

/-- JSON rendering of a string value; escaping is abstracted (it never
moves content to a new physical line, since `json.dump` escapes
control characters) — only the line structure matters below. -/
def jsonString (s : String) : String := "\"" ++ s ++ "\""

/-- JSON rendering of the nullable integer `sender_id`. -/
def jsonOptInt : Option Int → String
  | none => "null"
  | some i => toString i

/-- JSON rendering of the nullable string `sender_username`. -/
def jsonOptString : Option String → String
  | none => "null"
  | some s => jsonString s

/-- The physical lines `json.dump(..., indent=2)` produces for one
record of the array: an opening brace line indented by two spaces,
four field lines indented by four spaces, and a closing brace line
indented by two spaces (with a trailing comma unless the record is the
last).  The textual form of the stored timestamp is abstracted by its
numeral; only the leading indentation of each line matters below. -/
def recordLines (m : Msg) (isLast : Bool) : List String :=
  ["  \x7b",
   "    " ++ jsonString "date" ++ ": " ++ jsonString (toString m.date) ++ ",",
   "    " ++ jsonString "sender_id" ++ ": " ++ jsonOptInt m.sender_id ++ ",",
   "    " ++ jsonString "sender_username" ++ ": " ++ jsonOptString m.sender_username ++ ",",
   "    " ++ jsonString "text" ++ ": " ++ jsonString m.text,
   if isLast then "  \x7d" else "  \x7d,"]

/-- The record blocks of the array body, comma-separated as
`json.dump` emits them. -/
def renderRecords : List Msg → List String
  | [] => []
  | [m] => recordLines m true
  | m :: rest => recordLines m false ++ renderRecords rest

/-- The physical lines of the file `save_messages` writes with
`json.dump(messages, f, ensure_ascii=False, indent=2)`: a lone bracket
pair for the empty array, otherwise an opening bracket line, the
indented record blocks, and a closing bracket line. -/
def jsonDumpLines : List Msg → List String
  | [] => ["[]"]
  | m :: rest => "[" :: renderRecords (m :: rest) ++ ["]"]

/-- Python `line.startswith` with a single-character pattern: the
first character matches. -/
def firstCharIs (l : String) (c : Char) : Bool :=
  match l.data with
  | [] => false
  | d :: _ => d = c

/-- Sufficient condition, read off the source, for
`get_first_message_date` to never return on a file with the given
physical lines: the first `readline` yields a line starting with an
opening bracket, so the `while True` loop is entered; each later
`readline` yields the remaining lines in order and then the empty
string forever (Python `readline` at end of file); the loop's only
exit is a line whose first character is an opening brace, which the
empty string never is — so if no listed line after the first starts
with a brace, no iteration can exit and the call never terminates.
(The surrounding `try` cannot help: no exception is raised.) -/
def getFirstMessageDateDiverges (fileLines : List String) : Bool :=
  (match fileLines with
   | [] => false
   | l :: _ => firstCharIs l '[') &&
  !((fileLines.drop 1).any (fun l => firstCharIs l '\x7b'))

end TgArchiver

namespace TgArchiver

/-- Characters of the rstrip result are characters of the input. -/
theorem mem_rstripIf (p : Char → Bool) :
    ∀ (l : List Char) (c : Char), c ∈ rstripIf p l → c ∈ l := by
  intro l
  induction l with
  | nil => intro c hc; simp [rstripIf] at hc
  | cons a cs ih =>
    intro c hc
    rw [rstripIf] at hc
    cases hr : rstripIf p cs with
    | nil =>
      rw [hr] at hc
      cases hpa : p a with
      | true => simp [hpa] at hc
      | false =>
        simp [hpa] at hc
        simp [hc]
    | cons b bs =>
      rw [hr] at hc
      rcases List.mem_cons.mp hc with h | h
      · simp [h]
      · exact List.mem_cons_of_mem a (ih c (hr ▸ h))

/-- The rstrip result, when non-empty, keeps the head of the input. -/
theorem head?_rstripIf (p : Char → Bool) (l : List Char) (c : Char)
    (h : (rstripIf p l).head? = some c) : l.head? = some c := by
  cases l with
  | nil => simp [rstripIf] at h
  | cons a cs =>
    rw [rstripIf] at h
    cases hr : rstripIf p cs with
    | nil =>
      rw [hr] at h
      cases hpa : p a with
      | true => simp [hpa] at h
      | false => simp [hpa] at h; simp [h]
    | cons b bs =>
      rw [hr] at h
      simp at h
      simp [h]

/-- The last character surviving an rstrip fails its test. -/
theorem getLast?_rstripIf (p : Char → Bool) :
    ∀ (l : List Char) (c : Char), (rstripIf p l).getLast? = some c → p c = false := by
  intro l
  induction l with
  | nil => intro c h; simp [rstripIf] at h
  | cons a cs ih =>
    intro c h
    rw [rstripIf] at h
    cases hr : rstripIf p cs with
    | nil =>
      rw [hr] at h
      cases hpa : p a with
      | true => simp [hpa] at h
      | false =>
        simp [hpa] at h
        exact h ▸ hpa
    | cons b bs =>
      rw [hr] at h
      rw [List.getLast?_cons_cons] at h
      rw [← hr] at h
      exact ih c h

/-- The head surviving dropWhile fails its test. -/
theorem head?_dropWhile_false (p : Char → Bool) :
    ∀ (l : List Char) (c : Char), (l.dropWhile p).head? = some c → p c = false := by
  intro l
  induction l with
  | nil => intro c h; simp at h
  | cons a cs ih =>
    intro c h
    rw [List.dropWhile_cons] at h
    cases hpa : p a with
    | true => simp [hpa] at h; exact ih c h
    | false => simp [hpa] at h; exact h ▸ hpa

/-- Unfolding helper: the character list underlying a constructed string. -/
theorem data_mk (l : List Char) : (String.mk l).data = l := rfl

/-- Claim C9 counterexample: the title with a tab before a trailing dot.
`strip()` runs before `rstrip` of dots, so removing the final dot
exposes a trailing tab: the sanitized filename produced by the locate
path ends in whitespace, contradicting the claim that the result never
ends in whitespace or a dot. -/
theorem sanitize_trailing_whitespace_cex :
    getChatFileName "a\t." = "a\t" ∧
    isPyWs '\t' = true ∧
    ("a\t" : String).data.getLast? = some '\t' := by
  refine ⟨by decide, by decide, by decide⟩

/-- Claim C9 amended: for every input chat title, the sanitized
filename contains none of the invalid filesystem characters (each was
replaced by an underscore), has no leading whitespace, and never ends
in a dot; it can, however, end in whitespace that was exposed by
removing trailing dots, since dots are stripped after whitespace. -/
theorem sanitize_amended (t : String) :
    (∀ c ∈ (getChatFileName t).data, c ∉ invalidChars) ∧
    (∀ c, (getChatFileName t).data.head? = some c → isPyWs c = false) ∧
    (∀ c, (getChatFileName t).data.getLast? = some c → c ≠ '.') := by
  refine ⟨?_, ?_, ?_⟩
  · intro c hc
    rw [getChatFileName, sanitizeFilename, data_mk] at hc
    have h1 := mem_rstripIf _ _ _ hc
    have h2 := mem_rstripIf _ _ _ h1
    have h3 := List.Sublist.mem h2 (List.dropWhile_sublist _)
    rcases List.mem_map.mp h3 with ⟨a, _, rfl⟩
    by_cases ha : a ∈ invalidChars
    · simp [replaceInvalid, ha]
      decide
    · simp [replaceInvalid, ha]
  · intro c h
    rw [getChatFileName, sanitizeFilename, data_mk] at h
    have h1 := head?_rstripIf _ _ _ h
    have h2 := head?_rstripIf _ _ _ h1
    exact head?_dropWhile_false _ _ _ h2
  · intro c h
    rw [getChatFileName, sanitizeFilename, data_mk] at h
    have h1 := getLast?_rstripIf _ _ _ h
    exact of_decide_eq_false h1

/-- Witness for the amended C9 theorem at the one-letter title. -/
theorem sanitize_amended_witness :
    ('a' ∉ invalidChars) ∧ (isPyWs 'a' = false) ∧ ('a' ≠ '.') :=
  ⟨(sanitize_amended "a").1 'a' (by decide),
   (sanitize_amended "a").2.1 'a' (by decide),
   (sanitize_amended "a").2.2 'a' (by decide)⟩

end TgArchiver

namespace TgArchiver

/-- Every record in the accumulator returned by the pagination loop
either was already present or was built from a stream message that
passed the boundary check, had a resolvable sender, and passed the
keep check. -/
theorem mem_parseLoop (mode : String) (ts : Nat) (ld lim : Option Nat) :
    ∀ (evs : List Event) (acc : List Msg) (cnt : Nat) (x : Msg),
      x ∈ (parseLoop mode ts ld lim evs acc cnt).1 →
      x ∈ acc ∨ ∃ m : SourceMsg, ∃ s : Sender,
        m.sender = some s ∧
        boundaryReached ld m.date = false ∧
        x = ⟨m.date, some s.id, s.username, truncate500 (pyTextOrEmpty m.text)⟩ ∧
        keepRecord x = true := by
  intro evs
  induction evs with
  | nil =>
    intro acc cnt x hx
    rw [parseLoop] at hx
    exact Or.inl hx
  | cons e evs ih =>
    intro acc cnt x hx
    cases e with
    | flood w =>
      rw [parseLoop] at hx
      exact Or.inl hx
    | item om =>
      cases om with
      | none =>
        rw [parseLoop] at hx
        exact ih acc cnt x hx
      | some m =>
        simp only [parseLoop] at hx
        split at hx
        · exact Or.inl hx
        · split at hx
          · exact Or.inl hx
          · next hb =>
            split at hx
            · exact ih acc cnt x hx
            · next s hs =>
              have hbf : boundaryReached ld m.date = false := by
                cases h : boundaryReached ld m.date with
                | true => exact absurd h hb
                | false => rfl
              split at hx
              · split at hx
                · next hk =>
                  rcases List.mem_cons.mp hx with h | h
                  · exact Or.inr ⟨m, s, hs, hbf, h, h ▸ hk⟩
                  · exact Or.inl h
                · exact Or.inl hx
              · rcases ih _ _ x hx with h | h
                · split at h
                  · next hk =>
                    rcases List.mem_cons.mp h with h2 | h2
                    · exact Or.inr ⟨m, s, hs, hbf, h2, h2 ▸ hk⟩
                    · exact Or.inl h2
                  · exact Or.inl h
                · exact Or.inr h

/-- Every record returned by the restart wrapper comes from a stream
message that passed the boundary and keep checks (the accumulator of
every attempt starts empty). -/
theorem mem_runAttempts (mode : String) (ts : Nat) (ld lim : Option Nat) :
    ∀ (attempts : List (List Event)) (x : Msg),
      x ∈ (runAttempts mode ts ld lim attempts).1 →
      ∃ m : SourceMsg, ∃ s : Sender,
        m.sender = some s ∧
        boundaryReached ld m.date = false ∧
        x = ⟨m.date, some s.id, s.username, truncate500 (pyTextOrEmpty m.text)⟩ ∧
        keepRecord x = true := by
  intro attempts
  induction attempts with
  | nil =>
    intro x hx
    rw [runAttempts] at hx
    simp at hx
  | cons ev rest ih =>
    intro x hx
    simp only [runAttempts] at hx
    split at hx
    · rcases mem_parseLoop mode ts ld lim ev [] 0 x hx with h | h
      · simp at h
      · exact h
    · exact ih x hx

end TgArchiver

namespace TgArchiver

/-- Claim C1: in last_saved mode, when the archive's last record has
timestamp T, every record returned by the fetch is strictly newer than
T — the per-message stop check rejects any message with timestamp at
most T before it can be accumulated, in every attempt across
flood-wait restarts. -/
theorem lastSaved_fetch_strictly_newer
    (lim : Option Nat) (fs : FileState) (ts T : Nat)
    (attempts : List (List Event)) (res : List Msg) (ws : List Nat)
    (hT : getLastMessageDate fs = some T)
    (hrun : parseMessages "last_saved" lim fs ts attempts = .ok (res, ws)) :
    ∀ r ∈ res, T < r.date := by
  intro r hr
  have hsetup : parseSetup "last_saved" lim fs ts = .ok (some T, lim) := by
    simp [parseSetup, hT]
  rw [parseMessages, hsetup] at hrun
  simp at hrun
  have hmem : r ∈ (runAttempts "last_saved" ts (some T) lim attempts).1 := by
    rw [hrun]
    exact hr
  rcases mem_runAttempts _ _ _ _ _ _ hmem with ⟨m, s, _, hbf, hxeq, _⟩
  rw [hxeq]
  show T < m.date
  simp [boundaryReached] at hbf
  omega

/-- Witness for C1 at a one-record archive (last timestamp 5) and a
single stream message at timestamp 9. -/
theorem lastSaved_fetch_strictly_newer_witness :
    getLastMessageDate (FileState.valid [⟨5, some 1, none, "x"⟩]) = some 5 ∧
    5 < (Msg.mk 9 (some 2) none "hi").date :=
  ⟨rfl,
   lastSaved_fetch_strictly_newer none (FileState.valid [⟨5, some 1, none, "x"⟩]) 0 5
     [[Event.item (some ⟨9, some ⟨2, none⟩, some "hi"⟩)]]
     [⟨9, some 2, none, "hi"⟩] [] rfl rfl
     ⟨9, some 2, none, "hi"⟩ (List.mem_singleton.mpr rfl)⟩

/-- Claim C6: every record returned by a fetch run has text of at most
500 characters (the slice), and non-empty text or a non-null sender id
(the sender filter runs before the record is built, so the stored
sender id is never null; the keep check additionally drops records
whose text and sender id are both falsy). -/
theorem fetched_record_invariant
    (mode : String) (lim : Option Nat) (fs : FileState) (ts : Nat)
    (attempts : List (List Event)) (res : List Msg) (ws : List Nat)
    (hrun : parseMessages mode lim fs ts attempts = .ok (res, ws)) :
    ∀ r ∈ res, r.text.length ≤ 500 ∧ (r.text ≠ "" ∨ r.sender_id ≠ none) := by
  intro r hr
  rw [parseMessages] at hrun
  cases hst : parseSetup mode lim fs ts with
  | error e => rw [hst] at hrun; simp at hrun
  | ok p =>
    obtain ⟨ld, lm⟩ := p
    rw [hst] at hrun
    simp at hrun
    have hmem : r ∈ (runAttempts mode ts ld lm attempts).1 := by
      rw [hrun]
      exact hr
    rcases mem_runAttempts _ _ _ _ _ _ hmem with ⟨m, s, _, _, hxeq, _⟩
    constructor
    · rw [hxeq]
      show (List.take 500 (pyTextOrEmpty m.text).data).length ≤ 500
      rw [List.length_take]
      exact min_le_left _ _
    · refine Or.inr ?_
      rw [hxeq]
      simp

/-- Witness for C6 at a single stream message with sender id 1 and
text of two characters. -/
theorem fetched_record_invariant_witness :
    (Msg.mk 3 (some 1) none "ok").text.length ≤ 500 ∧
    ((Msg.mk 3 (some 1) none "ok").text ≠ "" ∨
      (Msg.mk 3 (some 1) none "ok").sender_id ≠ none) :=
  fetched_record_invariant "all" none FileState.missing 0
    [[Event.item (some ⟨3, some ⟨1, none⟩, some "ok"⟩)]]
    [⟨3, some 1, none, "ok"⟩] [] rfl
    ⟨3, some 1, none, "ok"⟩ (List.mem_singleton.mpr rfl)

end TgArchiver

namespace TgArchiver

/-- Claim C7: when an attempt's stream raises a flood wait of `w`, the
engine sleeps exactly `w` and restarts the whole fetch for that chat
with the same parameters: the run's records are exactly those of the
fresh fetch over the remaining attempts (the partially accumulated
records are discarded, not returned alongside), and the sleep trace is
`w` followed by the restart's sleeps. -/
theorem floodwait_restart
    (mode : String) (lim : Option Nat) (fs : FileState) (ts : Nat)
    (ld lm : Option Nat) (ev : List Event) (rest : List (List Event))
    (acc : List Msg) (w : Nat)
    (hsetup : parseSetup mode lim fs ts = .ok (ld, lm))
    (hflood : parseLoop mode ts ld lm ev [] 0 = (acc, some w)) :
    parseMessages mode lim fs ts (ev :: rest) =
      Except.map (fun p => (p.1, w :: p.2)) (parseMessages mode lim fs ts rest) := by
  simp only [parseMessages, hsetup]
  simp [runAttempts, hflood, Except.map]

/-- Witness for C7: one message is accumulated, then a flood wait of 7
arrives; the result equals the restart's result with the sleep 7
recorded, the partial record discarded. -/
theorem floodwait_restart_witness :
    parseMessages "all" none FileState.missing 0
        [[Event.item (some ⟨3, some ⟨1, none⟩, some "a"⟩), Event.flood 7], []] =
      Except.map (fun p => (p.1, 7 :: p.2))
        (parseMessages "all" none FileState.missing 0 [[]]) :=
  floodwait_restart "all" none FileState.missing 0 none none
    [Event.item (some ⟨3, some ⟨1, none⟩, some "a"⟩), Event.flood 7] [[]]
    [⟨3, some 1, none, "a"⟩] 7 rfl rfl

/-- Claim C8: count mode with an absent limit, and any unknown mode,
fail with the configuration `ValueError` independently of the source
stream (before any message is consumed); the orchestrator catches the
error, so the failing chat contributes to no counter and the loop
continues with the remaining chat references unchanged. -/
theorem config_error_aborts_chat_only (fs : FileState) (ts : Nat) :
    (∀ attempts, parseMessages "count" none fs ts attempts = .error .missingLimit)
    ∧ (∀ mode : String, mode ≠ "last_saved" → mode ≠ "today" → mode ≠ "all" →
        mode ≠ "count" → ∀ (lim : Option Nat) (attempts : List (List Event)),
          parseMessages mode lim fs ts attempts = .error (.unknownMode mode))
    ∧ (∀ (mode : String) (lim : Option Nat) (c : ChatSpec) (rest : List ChatSpec)
        (e : ConfigError),
        parseMessages mode lim c.fs ts c.attempts = .error e →
        processChats mode lim ts (c :: rest) = processChats mode lim ts rest) := by
  refine ⟨?_, ?_, ?_⟩
  · intro attempts
    rfl
  · intro mode h1 h2 h3 h4 lim attempts
    simp [parseMessages, parseSetup, h1, h2, h3, h4]
  · intro mode lim c rest e h
    simp [processChats, h]

/-- Witness for C8: count mode without a limit and a bogus mode both
error on an empty setup, and a chat whose fetch errors is skipped by
the orchestrator loop. -/
theorem config_error_aborts_chat_only_witness :
    parseMessages "count" none FileState.missing 0 [] = .error .missingLimit ∧
    parseMessages "weekly" none FileState.missing 0 [] =
      .error (.unknownMode "weekly") ∧
    processChats "count" none 0 [⟨FileState.missing, []⟩] = processChats "count" none 0 [] :=
  ⟨(config_error_aborts_chat_only FileState.missing 0).1 [],
   (config_error_aborts_chat_only FileState.missing 0).2.1 "weekly" (by decide) (by decide)
     (by decide) (by decide) none [],
   (config_error_aborts_chat_only FileState.missing 0).2.2 "count" none
     ⟨FileState.missing, []⟩ [] .missingLimit rfl⟩

end TgArchiver

namespace TgArchiver

/-- A line whose first character is a space does not start with an
opening brace. -/
theorem firstCharIs_space (l : String) (h : l.data.head? = some ' ') :
    firstCharIs l '\x7b' = false := by
  rw [firstCharIs]
  cases hd : l.data with
  | nil => rfl
  | cons e es =>
    rw [hd] at h
    simp only [List.head?_cons, Option.some.injEq] at h
    subst h
    rfl

/-- Every physical line of a record block written by the indent-2 dump
starts with whitespace, never with an opening brace. -/
theorem recordLines_no_brace (m : Msg) (isLast : Bool) :
    ∀ l ∈ recordLines m isLast, firstCharIs l '\x7b' = false := by
  intro l hl
  rw [recordLines] at hl
  simp only [List.mem_cons] at hl
  rcases hl with h | h | h | h | h | h | h
  · subst h; decide
  · subst h; exact firstCharIs_space _ rfl
  · subst h; exact firstCharIs_space _ rfl
  · subst h; exact firstCharIs_space _ rfl
  · subst h; exact firstCharIs_space _ rfl
  · subst h
    cases isLast with
    | true => decide
    | false => decide
  · simp at h

/-- No line of the rendered record blocks starts with an opening
brace. -/
theorem renderRecords_no_brace :
    ∀ (msgs : List Msg), ∀ l ∈ renderRecords msgs, firstCharIs l '\x7b' = false := by
  intro msgs
  induction msgs with
  | nil => intro l hl; simp [renderRecords] at hl
  | cons m rest ih =>
    intro l hl
    cases rest with
    | nil =>
      rw [renderRecords] at hl
      exact recordLines_no_brace m true l hl
    | cons m2 rest2 =>
      have hre : renderRecords (m :: m2 :: rest2) =
          recordLines m false ++ renderRecords (m2 :: rest2) := by
        rw [renderRecords]
        simp
      rw [hre] at hl
      rcases List.mem_append.mp hl with h | h
      · exact recordLines_no_brace m false l h
      · exact ih l h

/-- Claim C4 (code bug): `get_first_message_date` never terminates on
any archive file actually written by `save_messages`.  The first line
of the indent-2 dump starts with the opening bracket, so the scan loop
is entered; but no later physical line of the dump starts with an
opening brace at column zero (every record opens indented by two
spaces, and the empty array has no further line at all), and
`readline` at end of file returns the empty string forever — the
`while True` loop has no other exit.  This contradicts the claim that
the operation terminates for every archive, returning the earliest
timestamp of a valid archive as written by save. -/
theorem getFirstMessageDate_diverges_on_saved_archive :
    ∀ msgs : List Msg, getFirstMessageDateDiverges (jsonDumpLines msgs) = true := by
  intro msgs
  cases msgs with
  | nil => decide
  | cons m rest =>
    rw [jsonDumpLines, getFirstMessageDateDiverges.eq_def]
    have h1 : firstCharIs "[" '[' = true := by decide
    have h2 : (renderRecords (m :: rest) ++ ["]"]).any
        (fun l => firstCharIs l '\x7b') = false := by
      rw [List.any_eq_false]
      intro x hx
      rcases List.mem_append.mp hx with h | h
      · simp [renderRecords_no_brace (m :: rest) x h]
      · rw [List.mem_singleton] at h
        subst h
        decide
    simp [h1, h2]

/-- Claim C10: the merge job's collected entries are exactly the
concatenation, in walk order, of the arrays of dot-json files whose
top level is an array, and its error log names exactly the undecodable
dot-json files: a file that parses to valid JSON with a non-array top
level is silently excluded, contributing no entries and no log line;
files not ending in dot-json are ignored entirely. -/
theorem merge_entries_characterization {α : Type} (files : List (String × JsonFile α)) :
    (mergeJsonEntries files).1 =
      files.flatMap (fun f => if pyEndsWith f.1 ".json" then entriesOf f.2 else []) ∧
    (mergeJsonEntries files).2 =
      files.filterMap (fun f =>
        if pyEndsWith f.1 ".json" && isUndecodable f.2 then some f.1 else none) := by
  induction files with
  | nil => exact ⟨rfl, rfl⟩
  | cons f rest ih =>
    obtain ⟨name, content⟩ := f
    cases he : pyEndsWith name ".json" with
    | true =>
      cases content with
      | undecodable =>
        refine ⟨?_, ?_⟩ <;>
          simp [mergeJsonEntries, he, entriesOf, isUndecodable, ih.1, ih.2]
      | array es =>
        refine ⟨?_, ?_⟩ <;>
          simp [mergeJsonEntries, he, entriesOf, isUndecodable, ih.1, ih.2]
      | nonArray =>
        refine ⟨?_, ?_⟩ <;>
          simp [mergeJsonEntries, he, entriesOf, isUndecodable, ih.1, ih.2]
    | false =>
      refine ⟨?_, ?_⟩ <;>
        simp [mergeJsonEntries, he, entriesOf, isUndecodable, ih.1, ih.2]

end TgArchiver

namespace TgArchiver

/-- Writing to a name absent from the directory appends a new file. -/
theorem writeOut_new {α : Type} (dir : List (String × List α)) (name : String)
    (content : List α) (h : hasOut dir name = false) :
    writeOut dir name content = dir ++ [(name, content)] := by
  rw [hasOut] at h
  rw [writeOut]
  simp [h]

/-- A fresh run of the merge job (neither candidate name present yet)
creates the dated snapshot under the base name. -/
theorem merge_fresh {α : Type} (files : List (String × JsonFile α)) (d t : String)
    (out : List (String × List α))
    (hb : hasOut out ("merged-" ++ d ++ ".json") = false) :
    mergeJsonFiles files d t out =
      out ++ [("merged-" ++ d ++ ".json", (mergeJsonEntries files).1)] := by
  rw [mergeJsonFiles]
  simp only [hb, Bool.false_eq_true, if_false]
  exact writeOut_new _ _ _ hb

/-- A run of the merge job finding the base name present writes under
the time-suffixed name, appending when that name is itself absent. -/
theorem merge_suffixed {α : Type} (files : List (String × JsonFile α)) (d t : String)
    (out : List (String × List α))
    (hb : hasOut out ("merged-" ++ d ++ ".json") = true)
    (ha : hasOut out ("merged-" ++ d ++ "-" ++ t ++ ".json") = false) :
    mergeJsonFiles files d t out =
      out ++ [("merged-" ++ d ++ "-" ++ t ++ ".json", (mergeJsonEntries files).1)] := by
  rw [mergeJsonFiles]
  simp only [hb, if_true]
  exact writeOut_new _ _ _ ha

/-- Claim C5 counterexample: three back-to-back runs of the merge job
over the same input on the same day and at the same minute.  The third
run reuses the time-suffixed name of the second and overwrites it
in place: the output directory is unchanged and still holds exactly
two snapshot files, not three — so it is not the case that every run
of a same-day sequence writes a new file. -/
theorem merge_third_run_overwrites_cex :
    (mergeJsonFiles [("a.json", JsonFile.array [1, 2])] "01-01-2025" "12-00"
        (mergeJsonFiles [("a.json", JsonFile.array [1, 2])] "01-01-2025" "12-00"
          (mergeJsonFiles [("a.json", JsonFile.array [1, 2])] "01-01-2025" "12-00" [])))
      = mergeJsonFiles [("a.json", JsonFile.array [1, 2])] "01-01-2025" "12-00"
          (mergeJsonFiles [("a.json", JsonFile.array [1, 2])] "01-01-2025" "12-00" []) ∧
    (mergeJsonFiles [("a.json", JsonFile.array [1, 2])] "01-01-2025" "12-00"
        (mergeJsonFiles [("a.json", JsonFile.array [1, 2])] "01-01-2025" "12-00" [])).length
      = 2 :=
  ⟨rfl, rfl⟩

/-- Claim C5 amended: starting from an output directory containing
neither candidate name, two back-to-back merge runs over an unchanged
root produce two snapshot files with identical content (the collected
entries) and different names — the base dated name and the
time-suffixed name — and the second run leaves the first snapshot in
place; the protection stops there: a further run in the same minute
reuses the suffixed name and overwrites that snapshot (see the
counterexample). -/
theorem merge_two_runs_amended {α : Type} (files : List (String × JsonFile α))
    (d t : String) (out : List (String × List α))
    (hb : hasOut out ("merged-" ++ d ++ ".json") = false)
    (ha : hasOut out ("merged-" ++ d ++ "-" ++ t ++ ".json") = false) :
    lookupOut (mergeJsonFiles files d t (mergeJsonFiles files d t out))
        ("merged-" ++ d ++ ".json") = some (mergeJsonEntries files).1 ∧
    lookupOut (mergeJsonFiles files d t (mergeJsonFiles files d t out))
        ("merged-" ++ d ++ "-" ++ t ++ ".json") = some (mergeJsonEntries files).1 ∧
    ("merged-" ++ d ++ ".json" : String) ≠ "merged-" ++ d ++ "-" ++ t ++ ".json" := by
  have hne : ("merged-" ++ d ++ ".json" : String) ≠ "merged-" ++ d ++ "-" ++ t ++ ".json" := by
    intro heq
    have hlen := congrArg String.length heq
    have h1 : ("merged-" : String).length = 7 := rfl
    have h2 : (".json" : String).length = 5 := rfl
    have h3 : ("-" : String).length = 1 := rfl
    simp only [String.length_append, h1, h2, h3] at hlen
    omega
  have hb' := hb
  have ha' := ha
  rw [hasOut] at hb' ha'
  have ho1 := merge_fresh files d t out hb
  have hb2 : hasOut (out ++ [("merged-" ++ d ++ ".json", (mergeJsonEntries files).1)])
      ("merged-" ++ d ++ ".json") = true := by
    simp [hasOut, List.any_append]
  have ha2 : hasOut (out ++ [("merged-" ++ d ++ ".json", (mergeJsonEntries files).1)])
      ("merged-" ++ d ++ "-" ++ t ++ ".json") = false := by
    simp [hasOut, List.any_append, ha', hne]
  have ho2 := merge_suffixed files d t _ hb2 ha2
  rw [ho1, ho2]
  have hfind : List.find?
      (fun f => f.1 = "merged-" ++ d ++ ".json")
      out = none := by
    rw [List.find?_eq_none]
    intro x hx
    exact (List.any_eq_false.mp hb') x hx
  have hfind2 : List.find?
      (fun f => f.1 = "merged-" ++ d ++ "-" ++ t ++ ".json")
      out = none := by
    rw [List.find?_eq_none]
    intro x hx
    exact (List.any_eq_false.mp ha') x hx
  refine ⟨?_, ?_, hne⟩
  · rw [lookupOut, List.find?_append, List.find?_append, hfind]
    simp
  · rw [lookupOut, List.find?_append, List.find?_append, hfind2]
    simp [hne]

/-- Witness for the amended C5 theorem on an empty output directory
and a one-file input. -/
theorem merge_two_runs_amended_witness :
    lookupOut (mergeJsonFiles [("a.json", JsonFile.array [1, 2])] "01-01-2025" "12-00"
        (mergeJsonFiles [("a.json", JsonFile.array [1, 2])] "01-01-2025" "12-00" []))
        "merged-01-01-2025.json" = some [1, 2] ∧
    lookupOut (mergeJsonFiles [("a.json", JsonFile.array [1, 2])] "01-01-2025" "12-00"
        (mergeJsonFiles [("a.json", JsonFile.array [1, 2])] "01-01-2025" "12-00" []))
        "merged-01-01-2025-12-00.json" = some [1, 2] ∧
    ("merged-01-01-2025.json" : String) ≠ "merged-01-01-2025-12-00.json" :=
  merge_two_runs_amended [("a.json", JsonFile.array [1, 2])] "01-01-2025" "12-00" [] rfl rfl

end TgArchiver

namespace TgArchiver

/-- Claim C2: appending to a pre-existing valid archive writes an
array whose record count is the pre-existing count plus the new count
(duplicates are not removed), and which is sorted ascending by parsed
timestamp, whatever the order in which the new records arrive. -/
theorem save_append_count_and_sorted (existing messages : List Msg) :
    (saveMessages messages (.valid existing) true).length
        = existing.length + messages.length ∧
    (saveMessages messages (.valid existing) true).Pairwise
        (fun a b => a.date ≤ b.date) := by
  have hsave : saveMessages messages (.valid existing) true =
      (existing ++ (if messages = [] then messages
        else messages.mergeSort dateLe)).mergeSort dateLe := by
    simp [saveMessages]
  constructor
  · rw [hsave, List.length_mergeSort, List.length_append]
    by_cases hm : messages = []
    · simp [hm]
    · rw [if_neg hm, List.length_mergeSort]
  · have hp : (saveMessages messages (.valid existing) true).Pairwise
        (fun a b => dateLe a b = true) := by
      rw [hsave]
      refine List.sorted_mergeSort ?_ ?_ _
      · intro a b c hab hbc
        simp [dateLe] at hab hbc ⊢
        omega
      · intro a b
        simp [dateLe]
        omega
    exact hp.imp (fun h => of_decide_eq_true h)

/-- Claim C3 counterexample: the archive's last timestamp is 5 (a
resume boundary exists) and the configured limit is 1; the stream
holds two messages, at timestamps 10 and 9, both strictly newer than
the boundary, yet the fetch returns only the first one — it stopped at
the configured limit before reaching the boundary, so a fetch with a
boundary is not unlimited. -/
theorem lastSaved_limit_stops_early_cex :
    getLastMessageDate (FileState.valid [⟨5, some 1, some "u", "x"⟩]) = some 5 ∧
    parseMessages "last_saved" (some 1) (FileState.valid [⟨5, some 1, some "u", "x"⟩]) 0
        [[Event.item (some ⟨10, some ⟨7, none⟩, some "hello"⟩),
          Event.item (some ⟨9, some ⟨7, none⟩, some "world"⟩)]]
      = .ok ([⟨10, some 7, none, "hello"⟩], []) ∧
    (5 : Nat) < 9 :=
  ⟨rfl, rfl, by omega⟩

/-- Claim C3 amended: in last_saved mode, when the archive yields no
resume boundary the budget defaults to 5000 if no limit is configured;
when a resume boundary exists the configured limit is kept unchanged —
the fetch is unlimited only if no limit was passed, and otherwise
stops at the limit even before reaching the boundary. -/
theorem lastSaved_budget_amended (fs : FileState) (lim : Option Nat) (ts : Nat) :
    (getLastMessageDate fs = none →
      parseSetup "last_saved" none fs ts = .ok (none, some 5000)) ∧
    (∀ T, getLastMessageDate fs = some T →
      parseSetup "last_saved" lim fs ts = .ok (some T, lim)) := by
  constructor
  · intro h
    simp [parseSetup, h, pyOrDefault]
  · intro T h
    simp [parseSetup, h]

/-- Witness for the amended C3 theorem: a missing archive with no
limit defaults to 5000; an archive with last timestamp 5 keeps the
configured limit 3. -/
theorem lastSaved_budget_amended_witness :
    parseSetup "last_saved" none FileState.missing 0 = .ok (none, some 5000) ∧
    parseSetup "last_saved" (some 3) (FileState.valid [⟨5, some 1, some "u", "x"⟩]) 0
      = .ok (some 5, some 3) :=
  ⟨(lastSaved_budget_amended FileState.missing none 0).1 rfl,
   (lastSaved_budget_amended (FileState.valid [⟨5, some 1, some "u", "x"⟩]) (some 3) 0).2 5 rfl⟩

end TgArchiver
